import Mathlib

/-!
# nad: event aggregation and delivery pipeline

A shallow embedding of `traffic-pump/main.go` (the producer: raw record decoding,
batching loop, dispatch) and `traffic-sink/main.go` (the receiver: one batch per
stream, protocol-name lookup), followed by the properties proved about them.

Conventions of the embedding:
* a Go `string` or byte slice is a list of bytes, each byte a natural number;
* Go unsigned integers are natural numbers, the conversions between widths are
  written with an explicit modulus;
* a Go pointer result that may be `nil` is an `Option`;
* everything the loop receives from outside (the `select` case taken, the result of
  `reader.Read()`, the outcome of a dispatch, the formatted clock) is an input.
-/

namespace Nad

/-- A Go string: its bytes in order. -/
abbrev GoString := List Nat

/-- The bytes of an ASCII string literal of the source. -/
def goStr (s : String) : GoString := s.toList.map Char.toNat

/-- Go `fmt.Sprintf("%d", n)` for an unsigned integer: its decimal rendering. -/
def fmtDecimal (n : Nat) : GoString := goStr (Nat.repr n)

/-! ## The generated message types (package `proto`) -/

namespace Traffic

/-- Modelled from the spec: the generated message type `traffic.ConnectionEvent`, whose
declaration is not among the sources. Its fields are the ones section 6 of the
specification lists for the wire event (nodeId, timestamp, pid, processName, srcAddr,
dstAddr, srcPort, dstPort, protocol), which are also exactly the ones the two programs
read and write. -/
structure ConnectionEvent where
  NodeId : GoString
  Timestamp : Nat
  Pid : Nat
  ProcessName : GoString
  Saddr : Nat
  Daddr : Nat
  Sport : Nat
  Dport : Nat
  Protocol : Nat
deriving DecidableEq

/-- Modelled from the spec: the generated message `ConnectionBatch{events}`. -/
structure ConnectionBatch where
  Events : List ConnectionEvent
deriving DecidableEq

/-- Modelled from the spec: the generated message `ConnectionResponse{message, batchId}`. -/
structure ConnectionResponse where
  Message : GoString
  BatchId : GoString
deriving DecidableEq

end Traffic

/-! ## traffic-pump/main.go -/

namespace Pump

/-- Source constant `TaskCommLen`. -/
def TaskCommLen : Nat := 16

/-- Source struct `ConnectionEvent`: the record written by the kernel side.
`Timestamp` is a `uint64`, `PID`, `UID`, `SAddr`, `DAddr` are `uint32`, `SyscallID`,
`SPort`, `DPort`, `Family` are `uint16`, `Comm` is `[TaskCommLen]byte`. -/
structure ConnectionEvent where
  Timestamp : Nat
  PID : Nat
  UID : Nat
  SyscallID : Nat
  Comm : List Nat
  SAddr : Nat
  DAddr : Nat
  SPort : Nat
  DPort : Nat
  Family : Nat
deriving DecidableEq

/-- The values a `ConnectionEvent` of the source can hold: every field within the range
of its Go type. -/
def ConnectionEvent.InRange (e : ConnectionEvent) : Prop :=
  e.Timestamp < 2 ^ 64 ∧ e.PID < 2 ^ 32 ∧ e.UID < 2 ^ 32 ∧ e.SyscallID < 2 ^ 16 ∧
  e.Comm.length = TaskCommLen ∧ (∀ b ∈ e.Comm, b < 256) ∧
  e.SAddr < 2 ^ 32 ∧ e.DAddr < 2 ^ 32 ∧
  e.SPort < 2 ^ 16 ∧ e.DPort < 2 ^ 16 ∧ e.Family < 2 ^ 16

instance (e : ConnectionEvent) : Decidable e.InRange := by
  unfold ConnectionEvent.InRange
  infer_instance

/-! ### Struct layout and the raw-memory reinterpretation -/

/-- The Go types occurring as fields of `ConnectionEvent`. -/
inductive GoType where
  | uint8
  | uint16
  | uint32
  | uint64
  | array (n : Nat) (elem : GoType)
deriving DecidableEq

/-- The `unsafe.Sizeof` of a field type. -/
def GoType.size : GoType → Nat
  | .uint8 => 1
  | .uint16 => 2
  | .uint32 => 4
  | .uint64 => 8
  | .array n elem => n * elem.size

/-- The `unsafe.Alignof` of a field type under the Go compiler for a target whose
largest alignment is `maxAlign` bytes (8 on 64-bit targets, 4 on 32-bit ones): a scalar
is aligned to its size, capped by `maxAlign`; an array is aligned as its element. -/
def GoType.align (maxAlign : Nat) : GoType → Nat
  | .uint8 => 1
  | .uint16 => min 2 maxAlign
  | .uint32 => min 4 maxAlign
  | .uint64 => min 8 maxAlign
  | .array _ elem => elem.align maxAlign

/-- Round `off` up to the next multiple of `a`. -/
def alignUp (off a : Nat) : Nat := (off + a - 1) / a * a

/-- The offsets at which the Go compiler places the fields of a struct, starting at
offset `off`: each field at the next multiple of its alignment. Returns the offsets
and the offset just past the last field. -/
def layoutFields (maxAlign : Nat) : Nat → List GoType → List Nat × Nat
  | off, [] => ([], off)
  | off, t :: ts =>
    let o := alignUp off (t.align maxAlign)
    let r := layoutFields maxAlign (o + t.size) ts
    (o :: r.1, r.2)

/-- The alignment of a struct: the largest alignment of its fields (at least 1). -/
def structAlign (maxAlign : Nat) (fields : List GoType) : Nat :=
  fields.foldl (fun a t => max a (t.align maxAlign)) 1

/-- The `unsafe.Sizeof` of a struct: the end of its last field rounded up to the
struct's alignment. -/
def structSize (maxAlign : Nat) (fields : List GoType) : Nat :=
  alignUp (layoutFields maxAlign 0 fields).2 (structAlign maxAlign fields)

/-- The field types of the source struct `ConnectionEvent`, in declaration order. -/
def connectionEventFields : List GoType :=
  [.uint64, .uint32, .uint32, .uint16, .array TaskCommLen .uint8,
   .uint32, .uint32, .uint16, .uint16, .uint16]

/-- The sum of the widths of the fields of `ConnectionEvent`, padding excluded. -/
def fieldWidthSum : Nat := (connectionEventFields.map GoType.size).sum

/-- Source expression `int(unsafe.Sizeof(ConnectionEvent{}))` on a 64-bit target. -/
def sizeofConnectionEvent : Nat := structSize 8 connectionEventFields

/-- The offset of field number `i` of `ConnectionEvent` on a 64-bit target. -/
def fieldOffset (i : Nat) : Nat := (layoutFields 8 0 connectionEventFields).1.getD i 0

/-- The byte at index `i` of a sample. Beyond the sample's end the value is a
placeholder: `pointerCast` lets no read get there. -/
def byteAt (raw : List Nat) (i : Nat) : Nat := raw.getD i 0 % 256

/-- The little-endian unsigned integer held in the `n` bytes at offset `off`. -/
def readUint (raw : List Nat) (off : Nat) : Nat → Nat
  | 0 => 0
  | n + 1 => byteAt raw off + 256 * readUint raw (off + 1) n

/-- The fields of a `ConnectionEvent` lying at the start of a sample's memory: each read
at its offset of the 64-bit layout, little-endian. -/
def castEvent (raw : List Nat) : ConnectionEvent :=
  { Timestamp := readUint raw (fieldOffset 0) 8
    PID := readUint raw (fieldOffset 1) 4
    UID := readUint raw (fieldOffset 2) 4
    SyscallID := readUint raw (fieldOffset 3) 2
    Comm := (List.range TaskCommLen).map (fun i => byteAt raw (fieldOffset 4 + i))
    SAddr := readUint raw (fieldOffset 5) 4
    DAddr := readUint raw (fieldOffset 6) 4
    SPort := readUint raw (fieldOffset 7) 2
    DPort := readUint raw (fieldOffset 8) 2
    Family := readUint raw (fieldOffset 9) 2 }

/-- Source expression `(*ConnectionEvent)(unsafe.Pointer(&record.RawSample[0]))`. The
access is in range only when the sample is at least as large as the struct: on an empty
sample the index expression `record.RawSample[0]` is out of range, and on a sample
shorter than the struct the pointer reaches past the sample's memory. `none` is that
out-of-range access. -/
def pointerCast (rawSample : List Nat) : Option ConnectionEvent :=
  if sizeofConnectionEvent ≤ rawSample.length then some (castEvent rawSample) else none

/-! ### convertEvent -/

/-- The `for i, b := range raw.Comm` loop of `convertEvent`, at index `i` with the
elements `rest` still to visit: the first zero byte sets `processName` to `Comm[:i]`
and breaks; without one `processName` keeps its initial value. -/
def commScan (comm : List Nat) : Nat → List Nat → GoString → GoString
  | _, [], processName => processName
  | i, b :: rest, processName =>
    if b = 0 then comm.take i else commScan comm (i + 1) rest processName

/-- The process name `convertEvent` extracts: `string(raw.Comm[:])`, then the scan. -/
def extractProcessName (comm : List Nat) : GoString :=
  commScan comm 0 comm comm

/-- The `switch raw.SyscallID` of `convertEvent`, with its preset `"unknown"`. -/
def syscallType (syscallID : Nat) : GoString :=
  if syscallID = 42 then goStr "connect"
  else if syscallID = 43 then goStr "accept"
  else if syscallID = 288 then goStr "accept4"
  else if syscallID = 142 then goStr "tcp_connect"
  else goStr "unknown"

/-- Go `fmt.Sprintf("%s [%s]", a, b)`. -/
def sprintfLabel (a b : GoString) : GoString :=
  a ++ goStr " [" ++ b ++ goStr "]"

/-- Source function `convertEvent`. The result is a pointer in the source, here an
`Option` whose `none` is `nil`. -/
def convertEvent (raw : ConnectionEvent) (nodeID : GoString) :
    Option Traffic.ConnectionEvent :=
  let processName := extractProcessName raw.Comm
  let syscallType := syscallType raw.SyscallID
  some
    { NodeId := nodeID
      Timestamp := raw.Timestamp
      Pid := raw.PID
      ProcessName := sprintfLabel processName syscallType
      Saddr := raw.SAddr
      Daddr := raw.DAddr
      Sport := raw.SPort % 2 ^ 32
      Dport := raw.DPort % 2 ^ 32
      Protocol := 6 }

/-! ### sendBatch and the main loop -/

/-- What the transport does with one dispatch: the three failure points of `sendBatch`
and the acknowledged case. -/
inductive DispatchOutcome where
  | streamFailed
  | sendFailed
  | recvFailed
  | acked (resp : Traffic.ConnectionResponse)
deriving DecidableEq

/-- The lines the producer writes to its log. -/
inductive LogLine where
  | shuttingDown
  | failedCreateStream
  | failedSendBatch
  | failedReceiveResponse
  | sent (count : Nat) (message : GoString)
deriving DecidableEq

/-- Source function `sendBatch`: it returns nothing, its only trace in the process is
the log line. The message given to `stream.Send` is `ConnectionBatch{Events: events}`. -/
def sendBatch (outcome : DispatchOutcome) (events : List Traffic.ConnectionEvent) :
    LogLine :=
  match outcome with
  | .streamFailed => .failedCreateStream
  | .sendFailed => .failedSendBatch
  | .recvFailed => .failedReceiveResponse
  | .acked resp => .sent events.length resp.Message

/-- One iteration of the `for { select { ... } }` loop of `main`, as chosen by the
environment: the signal case, the ticker case, or the default case with the result of
`reader.Read()`. Where the iteration may dispatch, `outcome` is what the transport
will do with that dispatch. -/
inductive Step where
  | signal
  | tick (outcome : DispatchOutcome)
  | readError
  | record (rawSample : List Nat) (outcome : DispatchOutcome)
deriving DecidableEq

/-- The state of the loop: the buffer `events`, and the trace of what the loop did so
far (the argument of every `sendBatch` call in order, the log, and the result of every
decode of a sample, that is of every pointer cast, in order). -/
structure LoopState where
  events : List Traffic.ConnectionEvent
  dispatched : List (List Traffic.ConnectionEvent)
  log : List LogLine
  decoded : List (Option ConnectionEvent)
deriving DecidableEq

/-- The state in which `main` enters the loop: `var events []*traffic.ConnectionEvent`. -/
def LoopState.init : LoopState :=
  { events := [], dispatched := [], log := [], decoded := [] }

/-- A call `sendBatch(client, events, nodeID)` followed by `events = events[:0]`. -/
def flush (outcome : DispatchOutcome) (events : List Traffic.ConnectionEvent)
    (s : LoopState) : LoopState :=
  { s with
    events := []
    dispatched := s.dispatched ++ [events]
    log := s.log ++ [sendBatch outcome events] }

/-- The `case <-ticker.C` branch. -/
def tickCase (outcome : DispatchOutcome) (s : LoopState) : LoopState :=
  if s.events.length > 0 then flush outcome s.events s else s

/-- The `default` branch after a successful `reader.Read()`: the length guard, then the
pointer cast (its result entered in `decoded`), `convertEvent`, the append and the
flush at 50. An out-of-range cast ends the iteration. -/
def recordCase (nodeID : GoString) (rawSample : List Nat) (outcome : DispatchOutcome)
    (s : LoopState) : LoopState :=
  if rawSample.length < sizeofConnectionEvent then s
  else
    let event := pointerCast rawSample
    let s1 : LoopState := { s with decoded := s.decoded ++ [event] }
    match event with
    | none => s1
    | some event =>
      match convertEvent event nodeID with
      | none => s1
      | some protoEvent =>
        let events := s1.events ++ [protoEvent]
        if events.length ≥ 50 then flush outcome events s1
        else { s1 with events := events }

/-- The loop of `main` run over the iterations the environment presents: the signal
case returns, a read error sleeps and continues. -/
def mainLoop (nodeID : GoString) : List Step → LoopState → LoopState
  | [], s => s
  | .signal :: _, s => { s with log := s.log ++ [.shuttingDown] }
  | .tick outcome :: rest, s => mainLoop nodeID rest (tickCase outcome s)
  | .readError :: rest, s => mainLoop nodeID rest s
  | .record rawSample outcome :: rest, s =>
    mainLoop nodeID rest (recordCase nodeID rawSample outcome s)

/-! ### What the loop is expected to hand on -/

/-- The event an iteration adds to the stream of events: the converted record when the
iteration read a record that passes the length guard, none otherwise. -/
def acceptedEvent (nodeID : GoString) : Step → Option Traffic.ConnectionEvent
  | .record rawSample _ =>
    if sizeofConnectionEvent ≤ rawSample.length then convertEvent (castEvent rawSample) nodeID
    else none
  | _ => none

/-- The converted events of the accepted records of a run, in arrival order. -/
def acceptedEvents (nodeID : GoString) (steps : List Step) : List Traffic.ConnectionEvent :=
  steps.filterMap (acceptedEvent nodeID)

/-- The same iteration with another dispatch outcome. -/
def Step.withOutcome (outcome : DispatchOutcome) : Step → Step
  | .signal => .signal
  | .tick _ => .tick outcome
  | .readError => .readError
  | .record rawSample _ => .record rawSample outcome

/-- The size bounds of the loop: fewer than 50 events buffered, and every batch given to
`sendBatch` holding between 1 and 50 events. -/
def LoopState.Bounded (s : LoopState) : Prop :=
  s.events.length < 50 ∧ ∀ b ∈ s.dispatched, 1 ≤ b.length ∧ b.length ≤ 50

instance (s : LoopState) : Decidable s.Bounded := by
  unfold LoopState.Bounded
  infer_instance

end Pump

/-! ## traffic-sink/main.go -/

namespace Sink

/-- Source function `intToIP`: the four bytes of the address, most significant first. -/
def intToIP (ipNum : Nat) : List Nat :=
  [(ipNum / 2 ^ 24) % 256, (ipNum / 2 ^ 16) % 256, (ipNum / 2 ^ 8) % 256, ipNum % 256]

/-- Source function `getProtocolName`. -/
def getProtocolName (proto : Nat) : GoString :=
  if proto = 6 then goStr "TCP"
  else if proto = 17 then goStr "UDP"
  else if proto = 1 then goStr "ICMP"
  else goStr "UNKNOWN (" ++ fmtDecimal proto ++ goStr ")"

/-- Go conversion `int64(x)` of a `uint64`. -/
def toInt64 (x : Nat) : Int :=
  if x % 2 ^ 64 < 2 ^ 63 then (x % 2 ^ 64 : Nat) else (x % 2 ^ 64 : Nat) - 2 ^ 64

/-- The lines the receiver writes to its log, with the arguments given to `log.Printf`
(the event's time as the nanosecond count given to `time.Unix`). -/
inductive LogLine where
  | recvError
  | received (nodeId : GoString) (count : Nat)
  | event (unixNano : Int) (saddr : List Nat) (sport : Nat) (daddr : List Nat)
      (dport : Nat) (pid : Nat) (processName : GoString) (protocolName : GoString)
  | sendError
deriving DecidableEq

/-- What the client side has queued on a stream: a batch message, or a transport error
that the next receive will report. -/
inductive Inbound where
  | batch (b : Traffic.ConnectionBatch)
  | broken
deriving DecidableEq

/-- The result of `stream.Recv()`. -/
inductive RecvResult where
  | batch (b : Traffic.ConnectionBatch)
  | err
deriving DecidableEq

/-- One inbound stream as the handler sees it: the messages not yet received, whether
the transport will accept the response, and the trace of the handler's calls. -/
structure Conn where
  inbound : List Inbound
  sendFails : Bool
  recvCalls : Nat
  sendCalls : List Traffic.ConnectionResponse
  log : List LogLine
deriving DecidableEq

/-- A stream on which nothing has been done yet. -/
def Conn.fresh (inbound : List Inbound) (sendFails : Bool) : Conn :=
  { inbound := inbound, sendFails := sendFails, recvCalls := 0, sendCalls := [], log := [] }

/-- How a call of the handler ends. -/
inductive Result where
  | returned (failed : Bool)
  | panicked
deriving DecidableEq

/-- Call `stream.Recv()`: the next queued message, or the end-of-stream error when the
client has nothing more queued. -/
def Conn.Recv (c : Conn) : RecvResult × Conn :=
  match c.inbound with
  | [] => (.err, { c with recvCalls := c.recvCalls + 1 })
  | .broken :: rest => (.err, { c with inbound := rest, recvCalls := c.recvCalls + 1 })
  | .batch b :: rest => (.batch b, { c with inbound := rest, recvCalls := c.recvCalls + 1 })

/-- Call `stream.SendAndClose(response)`: reports whether it failed. -/
def Conn.SendAndClose (response : Traffic.ConnectionResponse) (c : Conn) : Bool × Conn :=
  (c.sendFails, { c with sendCalls := c.sendCalls ++ [response] })

/-- The log line of the `for _, event := range batch.Events` loop for one event. -/
def eventLine (event : Traffic.ConnectionEvent) : LogLine :=
  .event (toInt64 event.Timestamp) (intToIP event.Saddr) event.Sport
    (intToIP event.Daddr) event.Dport event.Pid event.ProcessName
    (getProtocolName event.Protocol)

/-- The body of the `for` loop of `SendConnectionEvents`, `nowStamp` being
`time.Now().Format("20060102150405")`. The result is `some` when the body returns from
the handler and `none` when it falls through to the next iteration. -/
def iteration (nowStamp : GoString) (c : Conn) : Option Result × Conn :=
  match c.Recv with
  | (.err, c1) => (some (.returned true), { c1 with log := c1.log ++ [.recvError] })
  | (.batch batch, c1) =>
    match batch.Events with
    | [] => (some .panicked, c1)
    | first :: _ =>
      let c2 : Conn := { c1 with log := c1.log ++ [.received first.NodeId batch.Events.length] }
      let c3 : Conn := { c2 with log := c2.log ++ batch.Events.map eventLine }
      let response : Traffic.ConnectionResponse :=
        { Message := goStr "OK", BatchId := goStr "batch_" ++ nowStamp }
      match c3.SendAndClose response with
      | (true, c4) => (some (.returned true), { c4 with log := c4.log ++ [LogLine.sendError] })
      | (false, c4) => (some (.returned false), c4)

/-- Source method `SinkServer.SendConnectionEvents`: the `for` loop, run for at most
`fuel` iterations; `none` when the fuel runs out before the handler ends. -/
def SendConnectionEvents (nowStamp : GoString) : Nat → Conn → Option (Result × Conn)
  | 0, _ => none
  | fuel + 1, c =>
    match iteration nowStamp c with
    | (some r, c1) => some (r, c1)
    | (none, c1) => SendConnectionEvents nowStamp fuel c1

end Sink

/-! ## Sample inputs -/

namespace Pump

/-- The record of the end-to-end scenario: syscall 42, pid 1234, name `curl`, source
`10.0.0.1:5000`, destination `93.184.216.34:443`, run by uid 1000. -/
def curlRecord : ConnectionEvent :=
  { Timestamp := 1700000000000000000
    PID := 1234
    UID := 1000
    SyscallID := 42
    Comm := goStr "curl" ++ List.replicate 12 0
    SAddr := 167772161
    DAddr := 1572395042
    SPort := 5000
    DPort := 443
    Family := 2 }

/-- A record whose name field is `nginx` followed by eleven zero bytes. -/
def nginxRecord : ConnectionEvent :=
  { curlRecord with PID := 77, UID := 33, SyscallID := 43,
                    Comm := goStr "nginx" ++ List.replicate 11 0 }

/-- A sample of `n` bytes, all of them `b`. -/
def sampleOf (n b : Nat) : List Nat := List.replicate n b

/-- Fifty iterations that each read a 56-byte record, the dispatch failing. -/
def fiftyRecords : List (List Nat × DispatchOutcome) :=
  List.replicate 50 (sampleOf 56 65, .sendFailed)

/-- A buffer of three events. -/
def threeEvents : List Traffic.ConnectionEvent :=
  (convertEvent curlRecord (goStr "n")).toList ++ (convertEvent nginxRecord (goStr "n")).toList
    ++ (convertEvent curlRecord (goStr "n")).toList

/-- A run with a kept record, a short record, ticks, a read error and failed dispatches. -/
def sampleRun : List Step :=
  [.record (sampleOf 56 65) .sendFailed, .record (sampleOf 10 1) .sendFailed,
   .tick .streamFailed, .readError,
   .record (sampleOf 60 0) (.acked ⟨goStr "OK", goStr "batch_20240101000000"⟩),
   .tick .recvFailed, .tick .sendFailed]

end Pump

namespace Sink

/-- The batch of the end-to-end scenario: the one decoded `curl` event. -/
def curlBatch : Traffic.ConnectionBatch :=
  { Events := (Pump.convertEvent Pump.curlRecord (goStr "node-1")).toList }

/-- A stream on which the client queued the batch, then the batch again, then broke. -/
def busyStream : List Inbound := [.batch curlBatch, .batch curlBatch, .broken]

end Sink

/-! ## List facts used below -/

/-- Mapping a function that never fails keeps the length. -/
theorem filterMap_total_length {α β : Type} (f : α → Option β)
    (hf : ∀ a, (f a).isSome = true) (l : List α) :
    (l.filterMap f).length = l.length := by
  induction l with
  | nil => rfl
  | cons a l ih =>
    obtain ⟨b, hb⟩ := Option.isSome_iff_exists.mp (hf a)
    simp [List.filterMap_cons, hb, ih]

/-- Mapping a function that never fails commutes with taking the first `k` elements. -/
theorem filterMap_total_take {α β : Type} (f : α → Option β)
    (hf : ∀ a, (f a).isSome = true) (l : List α) (k : Nat) :
    (l.take k).filterMap f = (l.filterMap f).take k := by
  induction l generalizing k with
  | nil => simp
  | cons a l ih =>
    obtain ⟨b, hb⟩ := Option.isSome_iff_exists.mp (hf a)
    cases k with
    | zero => simp
    | succ k => simp [List.filterMap_cons, hb, ih]

/-! ## Properties of the decoder -/

namespace Pump

/-- The scan stops at the first zero byte: with `pre` already visited and free of zero
bytes, it yields the bytes before the first zero of the whole field when `rest` holds
one, and the initial value otherwise. -/
theorem commScan_spec (comm : List Nat) (processName : GoString) :
    ∀ (rest pre : List Nat), comm = pre ++ rest → (∀ b ∈ pre, b ≠ 0) →
      commScan comm pre.length rest processName =
        if 0 ∈ rest then comm.takeWhile (fun b => b != 0) else processName := by
  intro rest
  induction rest with
  | nil => intro pre _ _; simp [commScan]
  | cons b rest ih =>
    intro pre hcomm hpre
    by_cases hb : b = 0
    · subst hb
      have hpos : ∀ a ∈ pre, (fun b => b != 0) a = true := by
        intro a ha; simpa using hpre a ha
      simp [commScan, hcomm, List.takeWhile_append_of_pos hpos]
    · have h := ih (pre ++ [b]) (by simp [hcomm]) (by
        intro a ha
        rcases List.mem_append.mp ha with ha | ha
        · exact hpre a ha
        · simp at ha; simpa [ha] using hb)
      have hb2 : ¬ (0 = b) := fun h0 => hb h0.symm
      simp only [List.length_append, List.length_singleton] at h
      simp [commScan, hb, hb2, h]

/-- The extracted process name is the longest zero-free initial part of the field. -/
theorem extractProcessName_eq_takeWhile (comm : List Nat) :
    extractProcessName comm = comm.takeWhile (fun b => b != 0) := by
  have h := commScan_spec comm comm comm [] rfl (by simp)
  simp only [List.length_nil] at h
  unfold extractProcessName
  rw [h]
  split
  · rfl
  · rename_i h0
    symm
    rw [List.takeWhile_eq_self_iff]
    intro a ha
    have : a ≠ 0 := fun h => h0 (h ▸ ha)
    simpa using this

/-- The extracted name holds no zero byte. -/
theorem extractProcessName_no_zero (comm : List Nat) : 0 ∉ extractProcessName comm := by
  rw [extractProcessName_eq_takeWhile]
  intro h
  have := List.mem_takeWhile_imp h
  simp at this

/-- The extracted name is no longer than the field. -/
theorem extractProcessName_length_le (comm : List Nat) :
    (extractProcessName comm).length ≤ comm.length := by
  rw [extractProcessName_eq_takeWhile]
  exact (List.takeWhile_sublist _).length_le

/-- A field `pre ++ 0 :: post` with `pre` free of zero bytes yields `pre`. -/
theorem extractProcessName_append_zero (pre post : List Nat) (hpre : 0 ∉ pre) :
    extractProcessName (pre ++ 0 :: post) = pre := by
  rw [extractProcessName_eq_takeWhile]
  have hpos : ∀ a ∈ pre, (fun b => b != 0) a = true := by
    intro a ha
    have : a ≠ 0 := fun h => hpre (h ▸ ha)
    simpa using this
  simp [List.takeWhile_append_of_pos hpos]

/-- A field without a zero byte is taken whole. -/
theorem extractProcessName_of_no_zero (comm : List Nat) (h : 0 ∉ comm) :
    extractProcessName comm = comm := by
  rw [extractProcessName_eq_takeWhile, List.takeWhile_eq_self_iff]
  intro a ha
  have : a ≠ 0 := fun h0 => h (h0 ▸ ha)
  simpa using this

/-- C1: for every raw record and node id `convertEvent` returns an event (never nil)
whose `ProcessName` is `"<name> [<kind>]"`, `<name>` being the bytes of `Comm` before its
first zero byte and `<kind>` given by the table 42 -> connect, 43 -> accept,
288 -> accept4, 142 -> tcp_connect, anything else -> unknown. -/
theorem convertEvent_label (raw : ConnectionEvent) (nodeID : GoString) :
    ∃ e kind, convertEvent raw nodeID = some e ∧
      e.ProcessName =
        raw.Comm.takeWhile (fun b => b != 0) ++ goStr " [" ++ kind ++ goStr "]" ∧
      (raw.SyscallID = 42 → kind = goStr "connect") ∧
      (raw.SyscallID = 43 → kind = goStr "accept") ∧
      (raw.SyscallID = 288 → kind = goStr "accept4") ∧
      (raw.SyscallID = 142 → kind = goStr "tcp_connect") ∧
      (raw.SyscallID ≠ 42 → raw.SyscallID ≠ 43 → raw.SyscallID ≠ 288 →
        raw.SyscallID ≠ 142 → kind = goStr "unknown") := by
  refine ⟨_, syscallType raw.SyscallID, rfl, ?_, ?_, ?_, ?_, ?_, ?_⟩
  · simp only [sprintfLabel, extractProcessName_eq_takeWhile]
  · intro h; simp [syscallType, h]
  · intro h; simp [syscallType, h]
  · intro h; simp [syscallType, h]
  · intro h; simp [syscallType, h]
  · intro h1 h2 h3 h4; simp [syscallType, h1, h2, h3, h4]

/-- The label of the end-to-end scenario and of an unmapped syscall identifier. -/
theorem convertEvent_label_examples :
    (convertEvent curlRecord (goStr "node-1")).map (fun e => e.ProcessName)
      = some (goStr "curl [connect]") ∧
    (convertEvent { curlRecord with SyscallID := 999 } (goStr "node-1")).map
      (fun e => (e.ProcessName, e.Protocol)) = some (goStr "curl [unknown]", 6) := by
  decide

/-- C2: for a 16-byte `Comm` the name part of the label is the bytes of `Comm` strictly
before its first zero byte (so `pre ++ 0 :: post` with `pre` zero-free gives `pre`, the
empty name when `Comm` starts with a zero byte), all 16 bytes when `Comm` has no zero
byte; it never holds a zero byte and is at most 16 bytes long. -/
theorem convertEvent_name_truncation (raw : ConnectionEvent) (nodeID : GoString)
    (hlen : raw.Comm.length = TaskCommLen) :
    ∃ e name, convertEvent raw nodeID = some e ∧
      e.ProcessName = name ++ (goStr " [" ++ syscallType raw.SyscallID ++ goStr "]") ∧
      name = raw.Comm.takeWhile (fun b => b != 0) ∧
      (∀ pre post, raw.Comm = pre ++ 0 :: post → 0 ∉ pre → name = pre) ∧
      (∀ post, raw.Comm = 0 :: post → name = []) ∧
      (0 ∉ raw.Comm → name = raw.Comm ∧ name.length = 16) ∧
      0 ∉ name ∧ name.length ≤ 16 := by
  refine ⟨_, extractProcessName raw.Comm, rfl, ?_, extractProcessName_eq_takeWhile _,
    ?_, ?_, ?_, extractProcessName_no_zero _, ?_⟩
  · simp [sprintfLabel]
  · intro pre post h hpre
    rw [h]; exact extractProcessName_append_zero pre post hpre
  · intro post h
    rw [h]; exact extractProcessName_append_zero [] post (by simp)
  · intro h
    rw [extractProcessName_of_no_zero _ h]
    exact ⟨rfl, hlen⟩
  · have := extractProcessName_length_le raw.Comm
    rw [hlen] at this
    exact this

/-- The name field `nginx` followed by eleven zero bytes decodes to the name `nginx`. -/
theorem convertEvent_name_truncation_witness :
    nginxRecord.Comm.length = TaskCommLen ∧
    nginxRecord.Comm = goStr "nginx" ++ 0 :: List.replicate 10 0 ∧
    (convertEvent nginxRecord []).map (fun e => e.ProcessName)
      = some (goStr "nginx" ++ goStr " [accept]") := by
  obtain ⟨e, name, he, hlabel, -, hpre, -, -, -, -⟩ :=
    convertEvent_name_truncation nginxRecord [] (by decide)
  have hname : name = goStr "nginx" :=
    hpre (goStr "nginx") (List.replicate 10 0) (by decide) (by decide)
  refine ⟨by decide, by decide, ?_⟩
  rw [he, Option.map_some', hlabel, hname]
  rfl

/-- C3 (as amended): for every raw record with its fields in range, the decoded event
carries pid, timestamp, source and destination address and source and destination port
unchanged (the ports widened to 32 bits); the record's uid is not carried: the decoded
event is the same whatever the uid. -/
theorem convertEvent_numeric_fields (raw : ConnectionEvent) (nodeID : GoString)
    (h : raw.InRange) :
    ∃ e, convertEvent raw nodeID = some e ∧
      e.Pid = raw.PID ∧ e.Timestamp = raw.Timestamp ∧
      e.Saddr = raw.SAddr ∧ e.Daddr = raw.DAddr ∧
      e.Sport = raw.SPort ∧ e.Dport = raw.DPort ∧
      ∀ uid, convertEvent { raw with UID := uid } nodeID = some e := by
  obtain ⟨-, -, -, -, -, -, -, -, hs, hd, -⟩ := h
  refine ⟨_, rfl, rfl, rfl, rfl, rfl, ?_, ?_, fun _ => rfl⟩
  · exact Nat.mod_eq_of_lt (by omega)
  · exact Nat.mod_eq_of_lt (by omega)

/-- The numeric fields of the end-to-end scenario after decoding. -/
theorem convertEvent_numeric_fields_witness :
    curlRecord.InRange ∧
    ∃ e, convertEvent curlRecord (goStr "node-1") = some e ∧
      e.Pid = 1234 ∧ e.Timestamp = 1700000000000000000 ∧
      e.Saddr = 167772161 ∧ e.Daddr = 1572395042 ∧ e.Sport = 5000 ∧ e.Dport = 443 ∧
      ∀ uid, convertEvent { curlRecord with UID := uid } (goStr "node-1") = some e :=
  ⟨by decide, convertEvent_numeric_fields curlRecord (goStr "node-1") (by decide)⟩

/-- C3 as stated fails for the uid: two in-range records that differ in their uid
decode to the same event, so the uid cannot be recovered from the decoded event. -/
theorem convertEvent_uid_not_carried :
    curlRecord.InRange ∧ ({ curlRecord with UID := 0 } : ConnectionEvent).InRange ∧
    curlRecord.UID ≠ ({ curlRecord with UID := 0 } : ConnectionEvent).UID ∧
    convertEvent curlRecord (goStr "node-1") =
      convertEvent { curlRecord with UID := 0 } (goStr "node-1") := by
  decide

/-! ## Properties of the producer loop -/

/-- On a 64-bit target the struct is 56 bytes, 8 more than the sum of its field widths:
2 bytes of padding before `SAddr`, 6 after `Family`. -/
theorem sizeofConnectionEvent_eq : sizeofConnectionEvent = 56 := by decide

/-- On a 32-bit target the struct is 52 bytes, still more than the 48 of its fields. -/
theorem structSize_32bit : structSize 4 connectionEventFields = 52 := by decide

/-- The decoder never returns nil. -/
theorem convertEvent_isSome (raw : ConnectionEvent) (nodeID : GoString) :
    ∃ e, convertEvent raw nodeID = some e := ⟨_, rfl⟩

/-- The default branch on a sample below the struct size leaves the state as it is. -/
theorem recordCase_short (nodeID : GoString) (rawSample : List Nat)
    (outcome : DispatchOutcome) (s : LoopState)
    (h : rawSample.length < sizeofConnectionEvent) :
    recordCase nodeID rawSample outcome s = s := by
  simp [recordCase, h]

/-- Behind the length guard the pointer cast is in range. -/
theorem pointerCast_of_guard (rawSample : List Nat)
    (h : sizeofConnectionEvent ≤ rawSample.length) :
    pointerCast rawSample = some (castEvent rawSample) := by
  simp [pointerCast, h]

/-- Below the struct size the pointer cast is out of range. -/
theorem pointerCast_short (rawSample : List Nat)
    (h : rawSample.length < sizeofConnectionEvent) :
    pointerCast rawSample = none := by
  have h2 : ¬ sizeofConnectionEvent ≤ rawSample.length := by omega
  simp [pointerCast, h2]

/-- The default branch on a sample of at least the struct size decodes it once, in
range, appends the converted event, and flushes when that makes 50. -/
theorem recordCase_accept (nodeID : GoString) (rawSample : List Nat)
    (outcome : DispatchOutcome) (s : LoopState)
    (h : sizeofConnectionEvent ≤ rawSample.length) :
    ∃ e, convertEvent (castEvent rawSample) nodeID = some e ∧
      recordCase nodeID rawSample outcome s =
        if 50 ≤ s.events.length + 1 then
          flush outcome (s.events ++ [e])
            { s with decoded := s.decoded ++ [some (castEvent rawSample)] }
        else
          { s with events := s.events ++ [e],
                   decoded := s.decoded ++ [some (castEvent rawSample)] } := by
  refine ⟨_, rfl, ?_⟩
  have h2 : ¬ rawSample.length < sizeofConnectionEvent := by omega
  simp [recordCase, h2, pointerCast_of_guard _ h, convertEvent]

/-- A run over `a ++ b` is the run over `b` from the state the run over `a` reaches,
when `a` holds no signal. -/
theorem mainLoop_append (nodeID : GoString) (a b : List Step) (s : LoopState)
    (h : Step.signal ∉ a) :
    mainLoop nodeID (a ++ b) s = mainLoop nodeID b (mainLoop nodeID a s) := by
  induction a generalizing s with
  | nil => rfl
  | cons st a ih =>
    have ha : Step.signal ∉ a := fun hm => h (List.mem_cons_of_mem _ hm)
    cases st with
    | signal => exact absurd (List.mem_cons_self _ _) h
    | tick o => simp [mainLoop, ih _ ha]
    | readError => simp [mainLoop, ih _ ha]
    | record r o => simp [mainLoop, ih _ ha]

/-- The ticker branch keeps the events in order: what was dispatched followed by the
buffer is the same before and after. -/
theorem tickCase_stream (outcome : DispatchOutcome) (s : LoopState) :
    (tickCase outcome s).dispatched.flatten ++ (tickCase outcome s).events =
      s.dispatched.flatten ++ s.events := by
  unfold tickCase
  split
  · simp [flush]
  · rfl

/-- The default branch adds the accepted event at the end of the stream. -/
theorem recordCase_stream (nodeID : GoString) (rawSample : List Nat)
    (outcome : DispatchOutcome) (s : LoopState) :
    (recordCase nodeID rawSample outcome s).dispatched.flatten ++
        (recordCase nodeID rawSample outcome s).events =
      s.dispatched.flatten ++ s.events ++
        (acceptedEvent nodeID (.record rawSample outcome)).toList := by
  by_cases h : rawSample.length < sizeofConnectionEvent
  · have h2 : ¬ sizeofConnectionEvent ≤ rawSample.length := by omega
    simp [recordCase_short _ _ _ _ h, acceptedEvent, h2]
  · have h2 : sizeofConnectionEvent ≤ rawSample.length := by omega
    obtain ⟨e, he, hr⟩ := recordCase_accept nodeID rawSample outcome s h2
    rw [hr]
    simp only [acceptedEvent, h2, if_true, he, Option.toList]
    split
    · simp [flush]
    · simp

/-- The stream invariant of the loop from any state: what was dispatched followed by the
buffer grows by exactly the accepted events, in order. -/
theorem mainLoop_stream (nodeID : GoString) (steps : List Step) (s : LoopState)
    (h : Step.signal ∉ steps) :
    (mainLoop nodeID steps s).dispatched.flatten ++ (mainLoop nodeID steps s).events =
      s.dispatched.flatten ++ s.events ++ acceptedEvents nodeID steps := by
  induction steps generalizing s with
  | nil => simp [mainLoop, acceptedEvents]
  | cons st steps ih =>
    have hs : Step.signal ∉ steps := fun hm => h (List.mem_cons_of_mem _ hm)
    cases st with
    | signal => exact absurd (List.mem_cons_self _ _) h
    | tick o =>
      simp only [mainLoop]
      rw [ih _ hs, tickCase_stream]
      simp [acceptedEvents, acceptedEvent]
    | readError =>
      simp only [mainLoop]
      rw [ih _ hs]
      simp [acceptedEvents, acceptedEvent]
    | record r o =>
      simp only [mainLoop]
      rw [ih _ hs, recordCase_stream]
      simp only [acceptedEvents, List.filterMap_cons]
      cases acceptedEvent nodeID (.record r o) <;> simp [Option.toList]

/-- C5 (as amended): in the polling step a successfully read record is dropped (no
decode, nothing appended to the buffer, nothing dispatched: the state of the loop stays
as it is) if and only if its length is less than `unsafe.Sizeof(ConnectionEvent{})`,
which is 56 bytes on a 64-bit target: the fields, of widths 8, 4, 4, 2, 16, 4, 4, 2, 2,
2 (48 bytes in all), lie at offsets 0, 8, 12, 16, 18, 36, 40, 44, 46, 48, with 2 bytes
of padding between the name field and the source address and 6 after the family field.
Every record of length 0..55 is dropped, every record of 56 or more bytes is decoded
(one pointer cast, in range) and appended (and the buffer flushed when that makes 50
events). -/
theorem recordCase_drop_iff (nodeID : GoString) (rawSample : List Nat)
    (outcome : DispatchOutcome) (s : LoopState) :
    sizeofConnectionEvent = 56 ∧ fieldWidthSum = 48 ∧
    connectionEventFields.map GoType.size = [8, 4, 4, 2, 16, 4, 4, 2, 2, 2] ∧
    layoutFields 8 0 connectionEventFields = ([0, 8, 12, 16, 18, 36, 40, 44, 46, 48], 50) ∧
    fieldOffset 4 + TaskCommLen + 2 = fieldOffset 5 ∧
    fieldOffset 9 + 2 + 6 = sizeofConnectionEvent ∧
    (mainLoop nodeID [.record rawSample outcome] s = s ↔ rawSample.length < 56) ∧
    (rawSample.length < 56 →
      (mainLoop nodeID [.record rawSample outcome] s).decoded = s.decoded ∧
      (mainLoop nodeID [.record rawSample outcome] s).events = s.events ∧
      (mainLoop nodeID [.record rawSample outcome] s).dispatched = s.dispatched) ∧
    (56 ≤ rawSample.length →
      ∃ event e, pointerCast rawSample = some event ∧ convertEvent event nodeID = some e ∧
        (mainLoop nodeID [.record rawSample outcome] s).decoded = s.decoded ++ [some event] ∧
        mainLoop nodeID [.record rawSample outcome] s =
          if 50 ≤ s.events.length + 1 then
            flush outcome (s.events ++ [e]) { s with decoded := s.decoded ++ [some event] }
          else
            { s with events := s.events ++ [e], decoded := s.decoded ++ [some event] }) := by
  have hsz := sizeofConnectionEvent_eq
  have hdrop : rawSample.length < 56 → mainLoop nodeID [.record rawSample outcome] s = s :=
    fun h => recordCase_short nodeID rawSample outcome s (by omega)
  have hacc : 56 ≤ rawSample.length →
      ∃ event e, pointerCast rawSample = some event ∧ convertEvent event nodeID = some e ∧
        (mainLoop nodeID [.record rawSample outcome] s).decoded = s.decoded ++ [some event] ∧
        mainLoop nodeID [.record rawSample outcome] s =
          if 50 ≤ s.events.length + 1 then
            flush outcome (s.events ++ [e]) { s with decoded := s.decoded ++ [some event] }
          else
            { s with events := s.events ++ [e], decoded := s.decoded ++ [some event] } := by
    intro h
    obtain ⟨e, he, hr⟩ := recordCase_accept nodeID rawSample outcome s (by omega)
    refine ⟨castEvent rawSample, e, pointerCast_of_guard _ (by omega), he, ?_, hr⟩
    simp only [mainLoop, hr]
    split <;> rfl
  refine ⟨hsz, by decide, by decide, by decide, by decide, by decide, ⟨?_, hdrop⟩, ?_, hacc⟩
  · intro heq
    by_contra hlt
    obtain ⟨event, e, -, -, hdec, -⟩ := hacc (by omega)
    rw [heq] at hdec
    have := congrArg List.length hdec
    simp at this
  · intro h
    rw [hdrop h]
    exact ⟨rfl, rfl, rfl⟩

/-- C5 as stated fails at 48 bytes: a record as long as the sum of the field widths is
dropped, since the guard compares with the struct size, 56; a 56-byte record is kept. -/
theorem record_of_48_bytes_dropped :
    fieldWidthSum = 48 ∧ (sampleOf 48 65).length = 48 ∧
    mainLoop [] [.record (sampleOf 48 65) .sendFailed] LoopState.init = LoopState.init ∧
    (mainLoop [] [.record (sampleOf 56 65) .sendFailed] LoopState.init).events.length = 1 := by
  decide

/-- Every decode of a run is in range: the guard lets no pointer cast reach past a
sample. -/
theorem mainLoop_decodes_in_range (nodeID : GoString) (steps : List Step) (s : LoopState)
    (h : none ∉ s.decoded) : none ∉ (mainLoop nodeID steps s).decoded := by
  induction steps generalizing s with
  | nil => exact h
  | cons st steps ih =>
    cases st with
    | signal => exact h
    | tick o =>
      apply ih
      unfold tickCase
      split
      · exact h
      · exact h
    | readError => exact ih _ h
    | record r o =>
      apply ih
      by_cases hs : r.length < sizeofConnectionEvent
      · rw [recordCase_short _ _ _ _ hs]; exact h
      · obtain ⟨e, -, hr⟩ := recordCase_accept nodeID r o s (by omega)
        rw [hr]
        split <;> simpa [flush] using h

/-- Records that pass the guard, fewer than would fill the buffer to 50, are all
decoded and appended in order and nothing is dispatched. -/
theorem mainLoop_records_below (nodeID : GoString)
    (samples : List (List Nat × DispatchOutcome)) (s : LoopState)
    (hsize : ∀ p ∈ samples, sizeofConnectionEvent ≤ p.1.length)
    (hroom : s.events.length + samples.length < 50) :
    mainLoop nodeID (samples.map (fun p => Step.record p.1 p.2)) s =
      { s with
        events := s.events ++
          samples.filterMap (fun p => convertEvent (castEvent p.1) nodeID)
        decoded := s.decoded ++ samples.map (fun p => some (castEvent p.1)) } := by
  induction samples generalizing s with
  | nil => simp [mainLoop]
  | cons p samples ih =>
    have hp : sizeofConnectionEvent ≤ p.1.length := hsize p (List.mem_cons_self _ _)
    have hrest : ∀ q ∈ samples, sizeofConnectionEvent ≤ q.1.length :=
      fun q hq => hsize q (List.mem_cons_of_mem _ hq)
    obtain ⟨e, he, hr⟩ := recordCase_accept nodeID p.1 p.2 s hp
    simp only [List.length_cons] at hroom
    have hno : ¬ 50 ≤ s.events.length + 1 := by omega
    rw [if_neg hno] at hr
    simp only [List.map_cons, mainLoop, hr]
    rw [ih _ hrest (by simp; omega)]
    simp [he]

/-- No signal among iterations that all read a record. -/
theorem signal_not_mem_records (samples : List (List Nat × DispatchOutcome)) :
    Step.signal ∉ samples.map (fun p => Step.record p.1 p.2) := by
  simp

/-- C6: from an empty buffer, 50 consecutive polling steps that each read a record
passing the length guard make the loop call `sendBatch` exactly once, on the step that
appends the 50th event and on none of the first 49, with exactly the 50 converted events
in arrival order, and leave the buffer empty. -/
theorem flush_on_count (nodeID : GoString) (samples : List (List Nat × DispatchOutcome))
    (hlen : samples.length = 50)
    (hsize : ∀ p ∈ samples, sizeofConnectionEvent ≤ p.1.length) :
    (samples.filterMap (fun p => convertEvent (castEvent p.1) nodeID)).length = 50 ∧
    (∀ k, k < 50 →
      (mainLoop nodeID ((samples.map (fun p => Step.record p.1 p.2)).take k)
          LoopState.init).dispatched = [] ∧
      (mainLoop nodeID ((samples.map (fun p => Step.record p.1 p.2)).take k)
          LoopState.init).events =
        (samples.filterMap (fun p => convertEvent (castEvent p.1) nodeID)).take k) ∧
    (mainLoop nodeID (samples.map (fun p => Step.record p.1 p.2)) LoopState.init).dispatched
      = [samples.filterMap (fun p => convertEvent (castEvent p.1) nodeID)] ∧
    (mainLoop nodeID (samples.map (fun p => Step.record p.1 p.2)) LoopState.init).events
      = [] := by
  have hsome : ∀ p : List Nat × DispatchOutcome,
      (convertEvent (castEvent p.1) nodeID).isSome = true := fun _ => rfl
  have hbelow : ∀ k, k < 50 →
      (mainLoop nodeID ((samples.map (fun p => Step.record p.1 p.2)).take k)
          LoopState.init).dispatched = [] ∧
      (mainLoop nodeID ((samples.map (fun p => Step.record p.1 p.2)).take k)
          LoopState.init).events =
        (samples.filterMap (fun p => convertEvent (castEvent p.1) nodeID)).take k := by
    intro k hk
    rw [← List.map_take]
    rw [mainLoop_records_below nodeID (samples.take k) LoopState.init
      (fun p hp => hsize p (List.mem_of_mem_take hp))
      (by simp [LoopState.init, List.length_take]; omega)]
    simp [LoopState.init, filterMap_total_take _ hsome]
  have hfull : ∃ o s1, s1.dispatched = [] ∧
      mainLoop nodeID (samples.map (fun p => Step.record p.1 p.2)) LoopState.init =
        flush o (samples.filterMap (fun p => convertEvent (castEvent p.1) nodeID)) s1 := by
    obtain ⟨front, last, rfl⟩ : ∃ front last, samples = front ++ [last] := by
      have hne : samples ≠ [] := by
        intro h; simp [h] at hlen
      exact ⟨samples.dropLast, samples.getLast hne, (List.dropLast_append_getLast hne).symm⟩
    have hfront : front.length = 49 := by simpa using hlen
    have hlen2 : (front.filterMap (fun p => convertEvent (castEvent p.1) nodeID)).length = 49 := by
      rw [filterMap_total_length _ hsome, hfront]
    refine ⟨last.2,
      ⟨front.filterMap (fun p => convertEvent (castEvent p.1) nodeID), [], [],
        front.map (fun p => some (castEvent p.1)) ++ [some (castEvent last.1)]⟩, rfl, ?_⟩
    rw [List.map_append, mainLoop_append _ _ _ _ (signal_not_mem_records front)]
    rw [mainLoop_records_below nodeID front LoopState.init
      (fun p hp => hsize p (List.mem_append_left _ hp))
      (by simp [LoopState.init, hfront])]
    obtain ⟨e, he, hr⟩ := recordCase_accept nodeID last.1 last.2
      ⟨front.filterMap (fun p => convertEvent (castEvent p.1) nodeID), [], [],
        front.map (fun p => some (castEvent p.1))⟩
      (hsize last (by simp))
    simp only [List.map_cons, List.map_nil, mainLoop, LoopState.init, List.nil_append, hr]
    simp [hlen2, flush, List.filterMap_append, he]
  refine ⟨?_, hbelow, ?_, ?_⟩
  · rw [filterMap_total_length _ hsome, hlen]
  · obtain ⟨o, s1, hs1, ho⟩ := hfull
    rw [ho]; simp [flush, hs1]
  · obtain ⟨o, s1, -, ho⟩ := hfull
    rw [ho]; rfl

/-- Fifty 56-byte records in a row: one batch of the fifty converted events. -/
theorem flush_on_count_witness :
    fiftyRecords.length = 50 ∧
    (mainLoop [] (fiftyRecords.map (fun p => Step.record p.1 p.2)) LoopState.init).dispatched
      = [fiftyRecords.filterMap (fun p => convertEvent (castEvent p.1) [])] ∧
    (mainLoop [] (fiftyRecords.map (fun p => Step.record p.1 p.2)) LoopState.init).events
      = [] :=
  have h := flush_on_count [] fiftyRecords (by decide) (by
    intro p hp
    have hp2 : p = (sampleOf 56 65, DispatchOutcome.sendFailed) := List.eq_of_mem_replicate hp
    subst hp2
    decide)
  ⟨by decide, h.2.2.1, h.2.2.2⟩

/-- C7: a timer-tick step with a non-empty buffer calls `sendBatch` exactly once, with
exactly the buffered events in their order, and leaves the buffer empty; with an empty
buffer it calls `sendBatch` zero times and leaves the buffer empty. -/
theorem tick_flush (nodeID : GoString) (outcome : DispatchOutcome) (s : LoopState) :
    (s.events ≠ [] →
      (mainLoop nodeID [.tick outcome] s).dispatched = s.dispatched ++ [s.events] ∧
      (mainLoop nodeID [.tick outcome] s).events = [] ∧
      (mainLoop nodeID [.tick outcome] s).log = s.log ++ [sendBatch outcome s.events]) ∧
    (s.events = [] →
      (mainLoop nodeID [.tick outcome] s).dispatched = s.dispatched ∧
      (mainLoop nodeID [.tick outcome] s).events = [] ∧
      (mainLoop nodeID [.tick outcome] s).log = s.log) := by
  constructor
  · intro h
    have hpos : s.events.length > 0 := List.length_pos.mpr h
    simp [mainLoop, tickCase, hpos, flush]
  · intro h
    simp [mainLoop, tickCase, h]

/-- Three buffered events and a tick: one batch of those three; no event and a tick:
no batch. -/
theorem tick_flush_witness :
    threeEvents.length = 3 ∧
    (mainLoop [] [.tick .recvFailed] ⟨threeEvents, [], [], []⟩).dispatched = [threeEvents] ∧
    (mainLoop [] [.tick .recvFailed] ⟨threeEvents, [], [], []⟩).events = [] ∧
    (mainLoop [] [.tick .recvFailed] LoopState.init).dispatched = [] ∧
    (mainLoop [] [.tick .recvFailed] LoopState.init).events = [] :=
  have h3 := (tick_flush [] .recvFailed ⟨threeEvents, [], [], []⟩).1 (by decide)
  have h0 := (tick_flush [] .recvFailed LoopState.init).2 rfl
  ⟨by decide, h3.1, h3.2.1, h0.1, h0.2.1⟩

/-- The ticker branch reads only the buffer and the list of dispatched batches, and
its effect on them does not depend on the dispatch outcome. -/
theorem tickCase_outcome (o o2 : DispatchOutcome) (s s2 : LoopState)
    (he : s.events = s2.events) (hd : s.dispatched = s2.dispatched) :
    (tickCase o s).events = (tickCase o2 s2).events ∧
    (tickCase o s).dispatched = (tickCase o2 s2).dispatched := by
  unfold tickCase
  rw [he]
  split <;> simp [flush, he, hd]

/-- The default branch likewise. -/
theorem recordCase_outcome (nodeID : GoString) (r : List Nat) (o o2 : DispatchOutcome)
    (s s2 : LoopState) (he : s.events = s2.events) (hd : s.dispatched = s2.dispatched) :
    (recordCase nodeID r o s).events = (recordCase nodeID r o2 s2).events ∧
    (recordCase nodeID r o s).dispatched = (recordCase nodeID r o2 s2).dispatched := by
  by_cases hs : r.length < sizeofConnectionEvent
  · rw [recordCase_short _ _ _ _ hs, recordCase_short _ _ _ _ hs]
    exact ⟨he, hd⟩
  · obtain ⟨e, he1, hr1⟩ := recordCase_accept nodeID r o s (by omega)
    obtain ⟨e2, he2, hr2⟩ := recordCase_accept nodeID r o2 s2 (by omega)
    have hee : e2 = e := by
      rw [he1] at he2
      exact (Option.some.inj he2).symm
    subst hee
    rw [hr1, hr2, he]
    split <;> simp [flush, hd]

/-- The buffer and the batches of a run do not depend on the dispatch outcomes. -/
theorem mainLoop_outcome (nodeID : GoString) (o : DispatchOutcome) (steps : List Step)
    (s s2 : LoopState) (he : s.events = s2.events) (hd : s.dispatched = s2.dispatched) :
    (mainLoop nodeID (steps.map (Step.withOutcome o)) s2).events =
      (mainLoop nodeID steps s).events ∧
    (mainLoop nodeID (steps.map (Step.withOutcome o)) s2).dispatched =
      (mainLoop nodeID steps s).dispatched := by
  induction steps generalizing s s2 with
  | nil => exact ⟨he.symm, hd.symm⟩
  | cons st steps ih =>
    cases st with
    | signal => exact ⟨he.symm, hd.symm⟩
    | tick o1 =>
      have h := tickCase_outcome o1 o s s2 he hd
      exact ih _ _ h.1 h.2
    | readError => exact ih _ _ he hd
    | record r o1 =>
      have h := recordCase_outcome nodeID r o1 o s s2 he hd
      exact ih _ _ h.1 h.2

/-- An iteration that dispatches leaves the buffer empty. -/
theorem step_flush_empties (nodeID : GoString) (st : Step) (s : LoopState)
    (h : (mainLoop nodeID [st] s).dispatched ≠ s.dispatched) :
    (mainLoop nodeID [st] s).events = [] := by
  cases st with
  | signal => exact absurd rfl h
  | readError => exact absurd rfl h
  | tick o =>
    simp only [mainLoop, tickCase] at h ⊢
    split
    · rfl
    · rename_i hn; rw [if_neg hn] at h; exact absurd rfl h
  | record r o =>
    simp only [mainLoop] at h ⊢
    by_cases hs : r.length < sizeofConnectionEvent
    · rw [recordCase_short _ _ _ _ hs] at h; exact absurd rfl h
    · obtain ⟨e, -, hr⟩ := recordCase_accept nodeID r o s (by omega)
      rw [hr] at h ⊢
      split
      · rfl
      · rename_i hn; rw [if_neg hn] at h; exact absurd rfl h

/-- C9: for every sequence of polling steps and timer ticks from an empty buffer, and
whatever the outcome of each dispatch, the batches given to `sendBatch` so far, in
order, followed by the buffer, are the converted events of the accepted records in
arrival order; the buffer and the batches are the same under any other dispatch
outcomes, and every iteration that dispatches leaves the buffer empty. -/
theorem mainLoop_order (nodeID : GoString) (steps : List Step)
    (h : Step.signal ∉ steps) :
    (mainLoop nodeID steps LoopState.init).dispatched.flatten ++
        (mainLoop nodeID steps LoopState.init).events = acceptedEvents nodeID steps ∧
    (∀ o, (mainLoop nodeID (steps.map (Step.withOutcome o)) LoopState.init).events =
            (mainLoop nodeID steps LoopState.init).events ∧
          (mainLoop nodeID (steps.map (Step.withOutcome o)) LoopState.init).dispatched =
            (mainLoop nodeID steps LoopState.init).dispatched) ∧
    (∀ st, (mainLoop nodeID (steps ++ [st]) LoopState.init).dispatched ≠
              (mainLoop nodeID steps LoopState.init).dispatched →
            (mainLoop nodeID (steps ++ [st]) LoopState.init).events = []) := by
  refine ⟨?_, ?_, ?_⟩
  · have := mainLoop_stream nodeID steps LoopState.init h
    simpa [LoopState.init] using this
  · intro o
    exact mainLoop_outcome nodeID o steps _ _ rfl rfl
  · intro st hne
    rw [mainLoop_append _ _ _ _ h] at hne ⊢
    exact step_flush_empties nodeID st _ hne

/-- A run in which every dispatch fails or is acknowledged alike: two kept records, two
batches of one event each, nothing lost or repeated. -/
theorem mainLoop_order_witness :
    Step.signal ∉ sampleRun ∧
    (mainLoop [] sampleRun LoopState.init).dispatched.flatten ++
        (mainLoop [] sampleRun LoopState.init).events = acceptedEvents [] sampleRun ∧
    (acceptedEvents [] sampleRun).length = 2 ∧
    (mainLoop [] sampleRun LoopState.init).dispatched.length = 2 :=
  ⟨by decide, (mainLoop_order [] sampleRun (by decide)).1, by decide, by decide⟩

/-- The ticker branch keeps the size bounds. -/
theorem tickCase_bounded (outcome : DispatchOutcome) (s : LoopState) (h : s.Bounded) :
    (tickCase outcome s).Bounded := by
  obtain ⟨hlt, hb⟩ := h
  unfold tickCase
  split
  · rename_i hpos
    refine ⟨by simp [flush], ?_⟩
    intro b hmem
    simp only [flush, List.mem_append, List.mem_singleton] at hmem
    rcases hmem with hmem | rfl
    · exact hb b hmem
    · omega
  · exact ⟨hlt, hb⟩

/-- The default branch keeps the size bounds. -/
theorem recordCase_bounded (nodeID : GoString) (rawSample : List Nat)
    (outcome : DispatchOutcome) (s : LoopState) (h : s.Bounded) :
    (recordCase nodeID rawSample outcome s).Bounded := by
  obtain ⟨hlt, hb⟩ := h
  by_cases hs : rawSample.length < sizeofConnectionEvent
  · rw [recordCase_short _ _ _ _ hs]; exact ⟨hlt, hb⟩
  · obtain ⟨e, -, hr⟩ := recordCase_accept nodeID rawSample outcome s (by omega)
    rw [hr]
    split
    · refine ⟨by simp [flush], ?_⟩
      intro b hmem
      simp only [flush, List.mem_append, List.mem_singleton] at hmem
      rcases hmem with hmem | rfl
      · exact hb b hmem
      · simp only [List.length_append, List.length_singleton]; omega
    · refine ⟨?_, hb⟩
      simp only [List.length_append, List.length_singleton]; omega

/-- Every run keeps the size bounds. -/
theorem mainLoop_bounded (nodeID : GoString) (steps : List Step) (s : LoopState)
    (h : s.Bounded) : (mainLoop nodeID steps s).Bounded := by
  induction steps generalizing s with
  | nil => exact h
  | cons st steps ih =>
    cases st with
    | signal => exact h
    | tick o => exact ih _ (tickCase_bounded o s h)
    | readError => exact ih _ h
    | record r o => exact ih _ (recordCase_bounded nodeID r o s h)

/-- The loop starts within the size bounds. -/
theorem init_bounded : LoopState.init.Bounded := by
  refine ⟨by decide, ?_⟩
  intro b hb
  simp [LoopState.init] at hb

end Pump

namespace Sink

/-- C4 (as amended): `getProtocolName` returns `TCP` for 6, `UDP` for 17, `ICMP` for 1,
and otherwise `UNKNOWN (<n>)`, with a blank between the word and the bracket, `<n>` the
decimal rendering of the number. -/
theorem getProtocolName_table (n : Nat) :
    (n = 6 → getProtocolName n = goStr "TCP") ∧
    (n = 17 → getProtocolName n = goStr "UDP") ∧
    (n = 1 → getProtocolName n = goStr "ICMP") ∧
    (n ≠ 6 → n ≠ 17 → n ≠ 1 →
      getProtocolName n = goStr "UNKNOWN (" ++ goStr (Nat.repr n) ++ goStr ")") := by
  refine ⟨?_, ?_, ?_, ?_⟩
  · intro h; subst h; decide
  · intro h; subst h; decide
  · intro h; subst h; decide
  · intro h1 h2 h3; simp [getProtocolName, h1, h2, h3, fmtDecimal]

/-- The table at 6, 17, 1, and at 47 and 0. -/
theorem getProtocolName_table_witness :
    getProtocolName 6 = goStr "TCP" ∧ getProtocolName 17 = goStr "UDP" ∧
    getProtocolName 1 = goStr "ICMP" ∧ getProtocolName 47 = goStr "UNKNOWN (47)" ∧
    getProtocolName 0 = goStr "UNKNOWN (0)" :=
  ⟨(getProtocolName_table 6).1 rfl, (getProtocolName_table 17).2.1 rfl,
   (getProtocolName_table 1).2.2.1 rfl,
   ((getProtocolName_table 47).2.2.2 (by decide) (by decide) (by decide)).trans (by decide),
   ((getProtocolName_table 0).2.2.2 (by decide) (by decide) (by decide)).trans (by decide)⟩

/-- C4 as stated fails: for 47 the result is not `UNKNOWN(47)`; the source's format is
`UNKNOWN (%d)`, which renders `UNKNOWN (47)`. -/
theorem getProtocolName_47_has_blank :
    getProtocolName 47 ≠ goStr "UNKNOWN(47)" ∧
    getProtocolName 47 = goStr "UNKNOWN (47)" := by
  decide

/-! ## Properties of the receiver -/

/-- One pass of the loop body on a stream whose next message is a batch with at least
one event: one receive, the log lines, one response, and a return. -/
theorem iteration_nonempty (nowStamp : GoString) (c : Conn) (b : Traffic.ConnectionBatch)
    (rest : List Inbound) (hin : c.inbound = .batch b :: rest) (hne : b.Events ≠ []) :
    ∃ first, b.Events.head? = some first ∧
      iteration nowStamp c =
        (some (.returned c.sendFails),
          { inbound := rest
            sendFails := c.sendFails
            recvCalls := c.recvCalls + 1
            sendCalls := c.sendCalls ++ [⟨goStr "OK", goStr "batch_" ++ nowStamp⟩]
            log := c.log ++ [.received first.NodeId b.Events.length] ++
              b.Events.map eventLine ++ (if c.sendFails then [.sendError] else []) }) := by
  obtain ⟨evs⟩ := b
  cases evs with
  | nil => exact absurd rfl hne
  | cons first tl =>
    refine ⟨first, rfl, ?_⟩
    cases hf : c.sendFails <;>
      simp [iteration, Conn.Recv, hin, Conn.SendAndClose, hf]

/-- One pass of the loop body on a stream whose next message is a batch without events:
the index `batch.Events[0]` is out of range, before anything is logged or sent. -/
theorem iteration_empty (nowStamp : GoString) (c : Conn) (rest : List Inbound)
    (hin : c.inbound = .batch ⟨[]⟩ :: rest) :
    iteration nowStamp c =
      (some .panicked, { c with inbound := rest, recvCalls := c.recvCalls + 1 }) := by
  simp [iteration, Conn.Recv, hin]

/-- The whole call on a fresh stream whose first message is a batch with at least one
event, for any positive fuel. -/
theorem SendConnectionEvents_nonempty (nowStamp : GoString)
    (b : Traffic.ConnectionBatch) (rest : List Inbound) (sendFails : Bool) (fuel : Nat)
    (hne : b.Events ≠ []) :
    ∃ first, b.Events.head? = some first ∧
      SendConnectionEvents nowStamp (fuel + 1) (Conn.fresh (.batch b :: rest) sendFails) =
        some (.returned sendFails,
          { inbound := rest
            sendFails := sendFails
            recvCalls := 1
            sendCalls := [⟨goStr "OK", goStr "batch_" ++ nowStamp⟩]
            log := [.received first.NodeId b.Events.length] ++
              b.Events.map eventLine ++ (if sendFails then [.sendError] else []) }) := by
  obtain ⟨f, hf, hit⟩ := iteration_nonempty nowStamp
    (Conn.fresh (.batch b :: rest) sendFails) b rest rfl hne
  refine ⟨f, hf, ?_⟩
  simp only [SendConnectionEvents, hit]
  simp [Conn.fresh]

/-- The whole call on a fresh stream whose first message is a batch without events: it
ends in the out-of-range failure, with no response sent. -/
theorem SendConnectionEvents_empty (nowStamp : GoString) (rest : List Inbound)
    (sendFails : Bool) (fuel : Nat) :
    SendConnectionEvents nowStamp (fuel + 1) (Conn.fresh (.batch ⟨[]⟩ :: rest) sendFails) =
      some (.panicked,
        { inbound := rest, sendFails := sendFails, recvCalls := 1, sendCalls := [],
          log := [] }) := by
  have hit := iteration_empty nowStamp (Conn.fresh (.batch ⟨[]⟩ :: rest) sendFails) rest rfl
  simp only [SendConnectionEvents, hit]
  simp [Conn.fresh]

/-- C8: on a stream whose first message is a non-empty batch, whatever else is queued,
the handler (given any fuel) performs exactly one receive, sends exactly one response,
with `Message` `OK` and a `BatchId` starting with `batch_`, and returns leaving the
further messages unread; what it logs, sends and returns is the same for any other
messages after the first. -/
theorem SendConnectionEvents_single_cycle (nowStamp : GoString)
    (first : Traffic.ConnectionBatch) (rest : List Inbound) (sendFails : Bool) (fuel : Nat)
    (hne : first.Events ≠ []) :
    ∃ c resp,
      SendConnectionEvents nowStamp (fuel + 1) (Conn.fresh (.batch first :: rest) sendFails)
        = some (.returned sendFails, c) ∧
      c.recvCalls = 1 ∧ c.inbound = rest ∧
      c.sendCalls = [resp] ∧ resp.Message = goStr "OK" ∧ goStr "batch_" <+: resp.BatchId ∧
      ∀ rest2, ∃ c2,
        SendConnectionEvents nowStamp (fuel + 1)
            (Conn.fresh (.batch first :: rest2) sendFails) = some (.returned sendFails, c2) ∧
        c2.recvCalls = 1 ∧ c2.inbound = rest2 ∧ c2.sendCalls = c.sendCalls ∧ c2.log = c.log := by
  obtain ⟨f, hf, hrun⟩ := SendConnectionEvents_nonempty nowStamp first rest sendFails fuel hne
  refine ⟨_, ⟨goStr "OK", goStr "batch_" ++ nowStamp⟩, hrun, rfl, rfl, rfl, rfl,
    List.prefix_append _ _, ?_⟩
  intro rest2
  obtain ⟨f2, hf2, hrun2⟩ :=
    SendConnectionEvents_nonempty nowStamp first rest2 sendFails fuel hne
  have hff : f2 = f := by
    rw [hf] at hf2
    exact (Option.some.inj hf2).symm
  subst hff
  exact ⟨_, hrun2, rfl, rfl, rfl, rfl⟩

/-- The end-to-end batch on a stream with more messages queued behind it: one receive,
one `OK` response, the rest left unread. -/
theorem SendConnectionEvents_single_cycle_witness :
    curlBatch.Events ≠ [] ∧
    ∃ c resp,
      SendConnectionEvents (goStr "20240101000000") (0 + 1)
          (Conn.fresh (.batch curlBatch :: [.batch curlBatch, .broken]) false)
        = some (.returned false, c) ∧
      c.recvCalls = 1 ∧ c.inbound = [.batch curlBatch, .broken] ∧
      c.sendCalls = [resp] ∧ resp.Message = goStr "OK" ∧ goStr "batch_" <+: resp.BatchId ∧
      ∀ rest2, ∃ c2,
        SendConnectionEvents (goStr "20240101000000") (0 + 1)
            (Conn.fresh (.batch curlBatch :: rest2) false) = some (.returned false, c2) ∧
        c2.recvCalls = 1 ∧ c2.inbound = rest2 ∧ c2.sendCalls = c.sendCalls ∧ c2.log = c.log :=
  ⟨by decide,
   SendConnectionEvents_single_cycle (goStr "20240101000000") curlBatch
     [.batch curlBatch, .broken] false 0 (by decide)⟩

/-- The end-to-end scenario at the receiver: the one event is logged with protocol name
`TCP` and label `curl [connect]`, and the batch is acknowledged with `OK`. -/
theorem end_to_end_scenario :
    SendConnectionEvents (goStr "20240101000000") 1 (Conn.fresh busyStream false) =
      some (.returned false,
        { inbound := [.batch curlBatch, .broken]
          sendFails := false
          recvCalls := 1
          sendCalls := [⟨goStr "OK", goStr "batch_20240101000000"⟩]
          log := [.received (goStr "node-1") 1,
                  .event 1700000000000000000 [10, 0, 0, 1] 5000 [93, 184, 216, 34] 443 1234
                    (goStr "curl [connect]") (goStr "TCP")] }) := by
  decide

end Sink

/-! ## The producer and the receiver together -/

/-- C10: in every run of the producer loop from an empty buffer the buffer holds fewer
than 50 events at every iteration boundary and every batch given to `sendBatch` holds at
least 1 and at most 50 events; so on every such batch the receiver finds a first event
and returns without the out-of-range failure, whereas on a zero-event batch it ends in
that failure before any response is sent. -/
theorem dispatched_batches_in_range (nodeID : GoString) (steps : List Pump.Step) :
    (Pump.mainLoop nodeID steps Pump.LoopState.init).events.length < 50 ∧
    (∀ b ∈ (Pump.mainLoop nodeID steps Pump.LoopState.init).dispatched,
      1 ≤ b.length ∧ b.length ≤ 50 ∧
      ∀ nowStamp rest sendFails fuel, ∃ first c,
        (Traffic.ConnectionBatch.mk b).Events.head? = some first ∧
        Sink.SendConnectionEvents nowStamp (fuel + 1)
            (Sink.Conn.fresh (.batch ⟨b⟩ :: rest) sendFails)
          = some (.returned sendFails, c)) ∧
    (∀ nowStamp rest sendFails fuel, ∃ c,
      Sink.SendConnectionEvents nowStamp (fuel + 1)
          (Sink.Conn.fresh (.batch ⟨[]⟩ :: rest) sendFails) = some (.panicked, c) ∧
      c.sendCalls = []) := by
  have hb := Pump.mainLoop_bounded nodeID steps _ Pump.init_bounded
  refine ⟨hb.1, ?_, ?_⟩
  · intro b hmem
    obtain ⟨h1, h50⟩ := hb.2 b hmem
    refine ⟨h1, h50, ?_⟩
    intro nowStamp rest sendFails fuel
    have hne : (Traffic.ConnectionBatch.mk b).Events ≠ [] := by
      intro h
      have : b = [] := h
      simp [this] at h1
    obtain ⟨first, hf, hrun⟩ :=
      Sink.SendConnectionEvents_nonempty nowStamp ⟨b⟩ rest sendFails fuel hne
    exact ⟨first, _, hf, hrun⟩
  · intro nowStamp rest sendFails fuel
    exact ⟨_, Sink.SendConnectionEvents_empty nowStamp rest sendFails fuel, rfl⟩

end Nad
